import Mathlib

/-!
Verification of the scenario-writer session core: the rule engine
(RulePanel.tsx / App.tsx), the event log with its pause debounce
(Editor.tsx / App.tsx), session assembly (App.tsx handleFormSubmit) and the
persistence fallback chain (lib/firebase.ts).  All definitions are shallow
embeddings of the TypeScript source.
-/

namespace ScenarioWriter

/-- Rule.type in RulePanel.tsx: 'mandatory' | 'optional'. -/
inductive RuleType where
  | mandatory
  | optional
deriving DecidableEq, Repr

/-- Rule.condition.type in RulePanel.tsx: 'wordCount' | 'time' | 'manual'. -/
inductive CondKind where
  | wordCount
  | time
  | manual
deriving DecidableEq, Repr

/-- Rule.status in RulePanel.tsx: 'inactive' | 'active' | 'completed' | 'skipped'. -/
inductive RuleStatus where
  | inactive
  | active
  | completed
  | skipped
deriving DecidableEq, Repr

/-- Rule.condition in RulePanel.tsx: `{ type, value }` where value is a word-count
threshold or a time in seconds (a JS number; modelled as a rational). -/
structure Cond where
  kind : CondKind
  value : ℚ
deriving DecidableEq, Repr

/-- The Rule interface of RulePanel.tsx.  Timestamps (ms epoch, from Date.now())
are integers; completedAt/skippedAt are optional fields. -/
structure Rule where
  id : String
  content : String
  type : RuleType
  condition : Cond
  status : RuleStatus
  completedAt : Option Int := none
  skippedAt : Option Int := none
deriving DecidableEq, Repr

/-- The shouldActivate computation of the RulePanel effect (RulePanel.tsx lines
41-47): true when the condition is a met word-count threshold, else when it is a
met time threshold, else false.  elapsedSeconds is (now - startTime)/1000, a JS
float, modelled as a rational. -/
def shouldActivate (wordCount : Nat) (elapsedSeconds : ℚ) (rule : Rule) : Bool :=
  if rule.condition.kind = CondKind.wordCount ∧ rule.condition.value ≤ (wordCount : ℚ) then
    true
  else if rule.condition.kind = CondKind.time ∧ rule.condition.value ≤ elapsedSeconds then
    true
  else
    false

/-- One step of the RulePanel effect for a single rule (RulePanel.tsx lines
34-53): rules already completed or skipped are returned unchanged; every other
rule becomes active when shouldActivate holds and inactive otherwise. -/
def evaluateRule (wordCount : Nat) (elapsedSeconds : ℚ) (rule : Rule) : Rule :=
  if rule.status = RuleStatus.completed ∨ rule.status = RuleStatus.skipped then
    rule
  else if shouldActivate wordCount elapsedSeconds rule then
    { rule with status := RuleStatus.active }
  else
    { rule with status := RuleStatus.inactive }

/-- The whole-list rule evaluation of the RulePanel effect (rules.map at
RulePanel.tsx line 34). -/
def evaluate (rules : List Rule) (wordCount : Nat) (elapsedSeconds : ℚ) : List Rule :=
  rules.map (evaluateRule wordCount elapsedSeconds)

/-- The activeRules the panel renders (RulePanel.tsx line 55). -/
def activeRules (rules : List Rule) (wordCount : Nat) (elapsedSeconds : ℚ) : List Rule :=
  (evaluate rules wordCount elapsedSeconds).filter fun r =>
    decide (r.status = RuleStatus.active)

/-- The two rule interactions of App.tsx handleRuleInteraction: 'complete' | 'skip'. -/
inductive RuleAction where
  | complete
  | skip
deriving DecidableEq, Repr

/-- App.tsx handleRuleInteraction (lines 147-159): the matching rule gets status
completed/skipped and the corresponding timestamp; no check of the rule's type
or current status is made. -/
def handleRuleInteraction (rules : List Rule) (ruleId : String) (action : RuleAction)
    (now : Int) : List Rule :=
  rules.map fun rule =>
    if rule.id = ruleId then
      match action with
      | RuleAction.complete => { rule with status := RuleStatus.completed, completedAt := some now }
      | RuleAction.skip => { rule with status := RuleStatus.skipped, skippedAt := some now }
    else
      rule

/-- RulePanel.tsx line 115: the Skip button is rendered exactly for rules of
type optional. -/
def showSkipButton (rule : Rule) : Bool :=
  decide (rule.type = RuleType.optional)

/-- App.tsx handleSubmitClick (lines 195-205): submission is blocked when some
mandatory rule has status not completed and status active. -/
def blocksSubmission (rules : List Rule) : Bool :=
  decide (0 < (((rules.filter fun r => decide (r.type = RuleType.mandatory)).filter
    fun r => decide (¬r.status = RuleStatus.completed ∧ r.status = RuleStatus.active)).length))

theorem shouldActivate_iff (wordCount : Nat) (elapsedSeconds : ℚ) (rule : Rule) :
    shouldActivate wordCount elapsedSeconds rule = true ↔
      (rule.condition.kind = CondKind.wordCount ∧ rule.condition.value ≤ (wordCount : ℚ)) ∨
        (rule.condition.kind = CondKind.time ∧ rule.condition.value ≤ elapsedSeconds) := by
  unfold shouldActivate
  split_ifs with h1 h2
  · simp [h1]
  · simp [h2]
  · simp [h1, h2]

theorem evaluateRule_terminal (wordCount : Nat) (elapsedSeconds : ℚ) (rule : Rule)
    (h : rule.status = RuleStatus.completed ∨ rule.status = RuleStatus.skipped) :
    evaluateRule wordCount elapsedSeconds rule = rule := by
  unfold evaluateRule
  simp [h]

/-- C1: the rule evaluation step activates a non-terminal rule exactly when its
condition is met (wordCount with wordCount ≥ threshold, or time with
elapsedSeconds ≥ threshold) and deactivates it otherwise; wordCount rules are
independent of elapsed time, time rules are independent of word count, and
manual rules are never activated automatically. -/
theorem rule_activation_exact (rules : List Rule) (wordCount : Nat) (elapsedSeconds : ℚ)
    (r : Rule) (hmem : r ∈ rules)
    (hterm : ¬(r.status = RuleStatus.completed ∨ r.status = RuleStatus.skipped)) :
    evaluate rules wordCount elapsedSeconds = rules.map (evaluateRule wordCount elapsedSeconds) ∧
    ((evaluateRule wordCount elapsedSeconds r).status = RuleStatus.active ↔
      (r.condition.kind = CondKind.wordCount ∧ r.condition.value ≤ (wordCount : ℚ)) ∨
        (r.condition.kind = CondKind.time ∧ r.condition.value ≤ elapsedSeconds)) ∧
    (¬((r.condition.kind = CondKind.wordCount ∧ r.condition.value ≤ (wordCount : ℚ)) ∨
        (r.condition.kind = CondKind.time ∧ r.condition.value ≤ elapsedSeconds)) →
      (evaluateRule wordCount elapsedSeconds r).status = RuleStatus.inactive) ∧
    (r.condition.kind = CondKind.wordCount →
      ∀ es : ℚ, evaluateRule wordCount elapsedSeconds r = evaluateRule wordCount es r) ∧
    (r.condition.kind = CondKind.time →
      ∀ wc : Nat, evaluateRule wordCount elapsedSeconds r = evaluateRule wc elapsedSeconds r) ∧
    (r.condition.kind = CondKind.manual →
      (evaluateRule wordCount elapsedSeconds r).status = RuleStatus.inactive) := by
  refine ⟨rfl, ?_, ?_, ?_, ?_, ?_⟩
  · unfold evaluateRule
    rw [if_neg hterm]
    rw [← shouldActivate_iff wordCount elapsedSeconds r]
    rcases h : shouldActivate wordCount elapsedSeconds r with _ | _
    · simp
    · simp
  · intro hc
    unfold evaluateRule
    rw [if_neg hterm]
    have h : shouldActivate wordCount elapsedSeconds r = false := by
      rcases hs : shouldActivate wordCount elapsedSeconds r with _ | _
      · rfl
      · exact absurd ((shouldActivate_iff wordCount elapsedSeconds r).mp hs) hc
    simp [h]
  · intro hk es
    unfold evaluateRule shouldActivate
    simp [hk]
  · intro hk wc
    unfold evaluateRule shouldActivate
    simp [hk]
  · intro hk
    unfold evaluateRule
    rw [if_neg hterm]
    have h : shouldActivate wordCount elapsedSeconds r = false := by
      unfold shouldActivate
      simp [hk]
    simp [h]

/-- C1 witness: a wordCount-10 rule at 12 words and 0 elapsed seconds. -/
theorem rule_activation_exact_witness :
    (Rule.mk "structure1" "c" RuleType.optional (Cond.mk CondKind.wordCount 10)
        RuleStatus.inactive none none ∈
      [Rule.mk "structure1" "c" RuleType.optional (Cond.mk CondKind.wordCount 10)
        RuleStatus.inactive none none]) ∧
    ¬((Rule.mk "structure1" "c" RuleType.optional (Cond.mk CondKind.wordCount 10)
        RuleStatus.inactive none none).status = RuleStatus.completed ∨
      (Rule.mk "structure1" "c" RuleType.optional (Cond.mk CondKind.wordCount 10)
        RuleStatus.inactive none none).status = RuleStatus.skipped) ∧
    ((evaluateRule 12 0 (Rule.mk "structure1" "c" RuleType.optional
        (Cond.mk CondKind.wordCount 10) RuleStatus.inactive none none)).status =
      RuleStatus.active ↔
      ((Rule.mk "structure1" "c" RuleType.optional (Cond.mk CondKind.wordCount 10)
          RuleStatus.inactive none none).condition.kind = CondKind.wordCount ∧
        (Rule.mk "structure1" "c" RuleType.optional (Cond.mk CondKind.wordCount 10)
          RuleStatus.inactive none none).condition.value ≤ ((12 : Nat) : ℚ)) ∨
      ((Rule.mk "structure1" "c" RuleType.optional (Cond.mk CondKind.wordCount 10)
          RuleStatus.inactive none none).condition.kind = CondKind.time ∧
        (Rule.mk "structure1" "c" RuleType.optional (Cond.mk CondKind.wordCount 10)
          RuleStatus.inactive none none).condition.value ≤ (0 : ℚ))) := by
  refine ⟨by decide, by decide, ?_⟩
  exact (rule_activation_exact
    [Rule.mk "structure1" "c" RuleType.optional (Cond.mk CondKind.wordCount 10)
      RuleStatus.inactive none none] 12 0
    (Rule.mk "structure1" "c" RuleType.optional (Cond.mk CondKind.wordCount 10)
      RuleStatus.inactive none none) (by decide) (by decide)).2.1

/-- C2: once a rule is completed or skipped, any number of further rule
evaluations — at any word counts and elapsed times — leaves its status
unchanged; terminal states never revert to inactive or active. -/
theorem terminal_status_stable (r : Rule)
    (h : r.status = RuleStatus.completed ∨ r.status = RuleStatus.skipped)
    (steps : List (Nat × ℚ)) :
    (steps.foldl (fun acc p => evaluateRule p.1 p.2 acc) r).status = r.status := by
  have hfix : steps.foldl (fun acc p => evaluateRule p.1 p.2 acc) r = r := by
    induction steps with
    | nil => rfl
    | cons p ps ih =>
        rw [List.foldl_cons, evaluateRule_terminal p.1 p.2 r h]
        exact ih
  rw [hfix]

/-- C2 witness: a skipped rule, evaluated at three different word counts and
times, keeps its status. -/
theorem terminal_status_stable_witness :
    ((Rule.mk "content1" "c" RuleType.optional (Cond.mk CondKind.wordCount 40)
        RuleStatus.skipped none (some 7)).status = RuleStatus.completed ∨
      (Rule.mk "content1" "c" RuleType.optional (Cond.mk CondKind.wordCount 40)
        RuleStatus.skipped none (some 7)).status = RuleStatus.skipped) ∧
    (([(0, 0), (50, 10), (100, 500)] : List (Nat × ℚ)).foldl
        (fun acc p => evaluateRule p.1 p.2 acc)
        (Rule.mk "content1" "c" RuleType.optional (Cond.mk CondKind.wordCount 40)
          RuleStatus.skipped none (some 7))).status =
      (Rule.mk "content1" "c" RuleType.optional (Cond.mk CondKind.wordCount 40)
        RuleStatus.skipped none (some 7)).status :=
  ⟨Or.inr rfl,
    terminal_status_stable
      (Rule.mk "content1" "c" RuleType.optional (Cond.mk CondKind.wordCount 40)
        RuleStatus.skipped none (some 7))
      (Or.inr rfl) [(0, 0), (50, 10), (100, 500)]⟩

/-- C3 counterexample: App.tsx handleRuleInteraction applies skip to a mandatory
rule as well — the rule's state changes to skipped, so skip on a mandatory rule
is not rejected. -/
theorem skip_mandatory_not_rejected :
    (Rule.mk "m1" "c" RuleType.mandatory (Cond.mk CondKind.wordCount 10)
        RuleStatus.active none none).type = RuleType.mandatory ∧
    (handleRuleInteraction
        [Rule.mk "m1" "c" RuleType.mandatory (Cond.mk CondKind.wordCount 10)
          RuleStatus.active none none] "m1" RuleAction.skip 5).map Rule.status =
      [RuleStatus.skipped] ∧
    (handleRuleInteraction
        [Rule.mk "m1" "c" RuleType.mandatory (Cond.mk CondKind.wordCount 10)
          RuleStatus.active none none] "m1" RuleAction.skip 5).map Rule.status ≠
      [(Rule.mk "m1" "c" RuleType.mandatory (Cond.mk CondKind.wordCount 10)
          RuleStatus.active none none).status] := by
  refine ⟨rfl, rfl, ?_⟩
  decide

/-- C3 amended: the skip handler checks only the rule id, not the rule's type —
skip transitions any matching rule (mandatory included) to skipped and stamps
skippedAt with the current time; the restriction of skip to optional rules
exists only as a UI affordance (the Skip button is rendered exactly for
optional rules). -/
theorem skip_ignores_type (rules : List Rule) (ruleId : String) (now : Int) :
    handleRuleInteraction rules ruleId RuleAction.skip now =
      rules.map (fun r =>
        if r.id = ruleId then
          { r with status := RuleStatus.skipped, skippedAt := some now }
        else r) ∧
    (∀ r : Rule, showSkipButton r = true ↔ r.type = RuleType.optional) := by
  constructor
  · rfl
  · intro r
    simp [showSkipButton]

/-- C4: the submission gate blocks exactly when some mandatory rule is active
(and hence not completed); mandatory rules that never activated do not block. -/
theorem submission_gate_exact (rules : List Rule) :
    (blocksSubmission rules = true ↔
      ∃ r ∈ rules, r.type = RuleType.mandatory ∧ r.status = RuleStatus.active ∧
        r.status ≠ RuleStatus.completed) ∧
    ((∀ r ∈ rules, r.type = RuleType.mandatory → r.status ≠ RuleStatus.active) →
      blocksSubmission rules = false) := by
  have hiff : blocksSubmission rules = true ↔
      ∃ r ∈ rules, r.type = RuleType.mandatory ∧ r.status = RuleStatus.active ∧
        r.status ≠ RuleStatus.completed := by
    unfold blocksSubmission
    rw [decide_eq_true_eq, List.length_pos_iff_ne_nil, Ne, List.filter_eq_nil_iff]
    push_neg
    constructor
    · rintro ⟨r, hr, hp⟩
      rw [List.mem_filter] at hr
      refine ⟨r, hr.1, by simpa using hr.2, ?_, ?_⟩
      · exact (of_decide_eq_true hp).2
      · rw [(of_decide_eq_true hp).2]
        exact fun h => RuleStatus.noConfusion h
    · rintro ⟨r, hr, hm, ha, _⟩
      refine ⟨r, List.mem_filter.mpr ⟨hr, by simpa using hm⟩, ?_⟩
      refine decide_eq_true ⟨?_, ha⟩
      rw [ha]
      exact fun h => RuleStatus.noConfusion h
  refine ⟨hiff, fun hall => ?_⟩
  rcases h : blocksSubmission rules with _ | _
  · rfl
  · obtain ⟨r, hr, hm, ha, _⟩ := hiff.mp h
    exact absurd ha (hall r hr hm)

/-- EditorEvent.type in Editor.tsx: the event kinds the editor records. -/
inductive EvType where
  | type
  | delete
  | paste
  | pause
  | resume
  | consent
  | wildcard_accepted
  | wildcard_declined
deriving DecidableEq, Repr

/-- One recorded editor event: its kind and its Date.now() timestamp (ms). -/
structure Ev where
  type : EvType
  timestamp : Int
deriving DecidableEq, Repr

/-- The qualifying event kinds of the pause debounce, per the spec: type,
delete and paste. -/
def qualifyingEvent (t : EvType) : Bool :=
  match t with
  | EvType.type => true
  | EvType.delete => true
  | EvType.paste => true
  | _ => false

/-- The debounce interval of Editor.tsx trackEvent (line 123): 2000 ms. -/
def PAUSE_DEBOUNCE_MS : Int := 2000

/-- Editor.tsx trackEvent (lines 94-124) as a state machine over the pending
pause deadline.  Each call appends its event and re-arms the deadline at
call-time + 2000 ms (clearing any pending one); a deadline that elapses before
the next call — or after the last call — appends one synthetic pause event
stamped with the deadline time. -/
def processCalls : Option Int → List Ev → List Ev
  | some d, [] => [Ev.mk EvType.pause d]
  | none, [] => []
  | some d, e :: rest =>
      if d ≤ e.timestamp then
        Ev.mk EvType.pause d :: e :: processCalls (some (e.timestamp + PAUSE_DEBOUNCE_MS)) rest
      else
        e :: processCalls (some (e.timestamp + PAUSE_DEBOUNCE_MS)) rest
  | none, e :: rest => e :: processCalls (some (e.timestamp + PAUSE_DEBOUNCE_MS)) rest

theorem processCalls_append_last (cs : List Ev) :
    ∀ (dl : Option Int) (c : Ev), ∃ pre : List Ev,
      processCalls dl (cs ++ [c]) =
        pre ++ [c, Ev.mk EvType.pause (c.timestamp + PAUSE_DEBOUNCE_MS)] := by
  induction cs with
  | nil =>
      intro dl c
      match dl with
      | none => exact ⟨[], rfl⟩
      | some d =>
          by_cases h : d ≤ c.timestamp
          · exact ⟨[Ev.mk EvType.pause d], by simp [processCalls, h]⟩
          · exact ⟨[], by simp [processCalls, h]⟩
  | cons e cs ih =>
      intro dl c
      match dl with
      | none =>
          obtain ⟨pre, hp⟩ := ih (some (e.timestamp + PAUSE_DEBOUNCE_MS)) c
          exact ⟨e :: pre, by simp [processCalls, hp]⟩
      | some d =>
          by_cases h : d ≤ e.timestamp
          · obtain ⟨pre, hp⟩ := ih (some (e.timestamp + PAUSE_DEBOUNCE_MS)) c
            exact ⟨Ev.mk EvType.pause d :: e :: pre, by simp [processCalls, h, hp]⟩
          · obtain ⟨pre, hp⟩ := ih (some (e.timestamp + PAUSE_DEBOUNCE_MS)) c
            exact ⟨e :: pre, by simp [processCalls, h, hp]⟩

theorem processCalls_chain_pauses (cs : List Ev) :
    ∀ c : Ev, (∀ e ∈ cs, e.type ≠ EvType.pause) →
      List.Chain' (fun a b => b.timestamp < a.timestamp + PAUSE_DEBOUNCE_MS) (c :: cs) →
      (processCalls (some (c.timestamp + PAUSE_DEBOUNCE_MS)) cs).filter
          (fun e => decide (e.type = EvType.pause)) =
        [Ev.mk EvType.pause ((cs.getLastD c).timestamp + PAUSE_DEBOUNCE_MS)] := by
  induction cs with
  | nil =>
      intro c _ _
      rfl
  | cons e cs ih =>
      intro c hnp hchain
      obtain ⟨hlt, hchain'⟩ := List.chain'_cons.mp hchain
      have hne : ¬(c.timestamp + PAUSE_DEBOUNCE_MS ≤ e.timestamp) := not_le.mpr hlt
      have hstep : processCalls (some (c.timestamp + PAUSE_DEBOUNCE_MS)) (e :: cs) =
          e :: processCalls (some (e.timestamp + PAUSE_DEBOUNCE_MS)) cs := by
        simp [processCalls, hne]
      rw [hstep, List.filter_cons,
        decide_eq_false (hnp e (List.mem_cons_self e cs))]
      simp only [Bool.false_eq_true, if_false]
      rw [ih e (fun x hx => hnp x (List.mem_cons_of_mem e hx)) hchain',
        List.getLastD_cons]

theorem processCalls_mem (calls : List Ev) :
    ∀ (dl : Option Int) (e : Ev), e ∈ processCalls dl calls →
      e.type = EvType.pause ∨ e ∈ calls := by
  induction calls with
  | nil =>
      intro dl e he
      match dl with
      | none => cases he
      | some d =>
          left
          have : e = Ev.mk EvType.pause d := List.mem_singleton.mp he
          rw [this]
  | cons a calls ih =>
      intro dl e he
      have step : ∀ he' : e ∈ a :: processCalls (some (a.timestamp + PAUSE_DEBOUNCE_MS)) calls,
          e.type = EvType.pause ∨ e ∈ a :: calls := by
        intro he'
        rcases List.mem_cons.mp he' with h | h
        · right
          rw [h]
          exact List.mem_cons_self a calls
        · rcases ih (some (a.timestamp + PAUSE_DEBOUNCE_MS)) e h with h2 | h2
          · left
            exact h2
          · right
            exact List.mem_cons_of_mem a h2
      match dl with
      | none => exact step he
      | some d =>
          by_cases hle : d ≤ a.timestamp
          · rw [show processCalls (some d) (a :: calls) =
                Ev.mk EvType.pause d :: a ::
                  processCalls (some (a.timestamp + PAUSE_DEBOUNCE_MS)) calls from by
              simp [processCalls, hle]] at he
            rcases List.mem_cons.mp he with h | h
            · left
              rw [h]
            · exact step h
          · rw [show processCalls (some d) (a :: calls) =
                a :: processCalls (some (a.timestamp + PAUSE_DEBOUNCE_MS)) calls from by
              simp [processCalls, hle]] at he
            exact step he

/-- C5: starting with no pending countdown, a trace of trackEvent calls ending
in a qualifying event (type/delete/paste) at time t followed by quiet yields
exactly one synthetic pause immediately after it, stamped t + 2000; when every
call arrives before the previous 2000 ms countdown elapses, the pending pause
is suppressed each time and the whole output contains exactly one pause, from
the countdown restarted at the last call; and every event in the output other
than a pause is one of the recorded calls — the pause is the only
timer-generated event. -/
theorem pause_debounce (cs : List Ev) (c : Ev)
    (hq : qualifyingEvent c.type = true)
    (hnp : ∀ e ∈ cs ++ [c], e.type ≠ EvType.pause) :
    (∃ pre : List Ev, processCalls none (cs ++ [c]) =
        pre ++ [c, Ev.mk EvType.pause (c.timestamp + PAUSE_DEBOUNCE_MS)]) ∧
    (List.Chain' (fun a b => b.timestamp < a.timestamp + PAUSE_DEBOUNCE_MS) (cs ++ [c]) →
      (processCalls none (cs ++ [c])).filter (fun e => decide (e.type = EvType.pause)) =
        [Ev.mk EvType.pause (c.timestamp + PAUSE_DEBOUNCE_MS)]) ∧
    (∀ e ∈ processCalls none (cs ++ [c]), e.type = EvType.pause ∨ e ∈ cs ++ [c]) := by
  refine ⟨processCalls_append_last cs none c, ?_, processCalls_mem (cs ++ [c]) none⟩
  intro hchain
  match cs with
  | [] =>
      have hc : (decide (c.type = EvType.pause)) = false :=
        decide_eq_false (hnp c (by simp))
      simp [processCalls, List.filter, hc]
  | c0 :: cs' =>
      have hstep : processCalls none ((c0 :: cs') ++ [c]) =
          c0 :: processCalls (some (c0.timestamp + PAUSE_DEBOUNCE_MS)) (cs' ++ [c]) := rfl
      rw [hstep, List.filter_cons,
        decide_eq_false (hnp c0 (List.mem_cons_self c0 (cs' ++ [c])))]
      simp only [Bool.false_eq_true, if_false]
      rw [processCalls_chain_pauses (cs' ++ [c]) c0
        (fun x hx => hnp x (List.mem_cons_of_mem c0 hx)) hchain]
      rw [List.getLastD_concat]

/-- C5 witness: three calls 0 ms, 1000 ms and 1500 ms apart-from-start, each
within 2000 ms of the previous one, ending with a qualifying type event. -/
theorem pause_debounce_witness :
    qualifyingEvent (Ev.mk EvType.type 1500).type = true ∧
    (∀ e ∈ [Ev.mk EvType.type 0, Ev.mk EvType.delete 1000] ++ [Ev.mk EvType.type 1500],
      e.type ≠ EvType.pause) ∧
    ((∃ pre : List Ev,
        processCalls none
            ([Ev.mk EvType.type 0, Ev.mk EvType.delete 1000] ++ [Ev.mk EvType.type 1500]) =
          pre ++ [Ev.mk EvType.type 1500,
            Ev.mk EvType.pause ((Ev.mk EvType.type 1500).timestamp + PAUSE_DEBOUNCE_MS)]) ∧
      (List.Chain' (fun a b => b.timestamp < a.timestamp + PAUSE_DEBOUNCE_MS)
          ([Ev.mk EvType.type 0, Ev.mk EvType.delete 1000] ++ [Ev.mk EvType.type 1500]) →
        (processCalls none
            ([Ev.mk EvType.type 0, Ev.mk EvType.delete 1000] ++
              [Ev.mk EvType.type 1500])).filter (fun e => decide (e.type = EvType.pause)) =
          [Ev.mk EvType.pause ((Ev.mk EvType.type 1500).timestamp + PAUSE_DEBOUNCE_MS)]) ∧
      (∀ e ∈ processCalls none
          ([Ev.mk EvType.type 0, Ev.mk EvType.delete 1000] ++ [Ev.mk EvType.type 1500]),
        e.type = EvType.pause ∨
          e ∈ [Ev.mk EvType.type 0, Ev.mk EvType.delete 1000] ++ [Ev.mk EvType.type 1500])) :=
  ⟨by decide, by decide,
    pause_debounce [Ev.mk EvType.type 0, Ev.mk EvType.delete 1000] (Ev.mk EvType.type 1500)
      (by decide) (by decide)⟩

/-- App.tsx handleTrackEvent (lines 142-144): append one event to the ordered
log; the shape of the event is arbitrary. -/
def handleTrackEvent {α : Type} (events : List α) (e : α) : List α :=
  events ++ [e]

/-- The spec's drain(): read the whole log out, in order. -/
def drain {α : Type} (events : List α) : List α :=
  events

/-- C6: the event log is append-only and preserves insertion order — recording
A, B, C in that order then draining yields exactly [A, B, C] after the prior
log, for events of any shape (colliding timestamps included), and recording any
sequence appends it verbatim, so no event is removed or reordered. -/
theorem event_log_append_only {α : Type} (log : List α) (A B C : α) :
    drain (handleTrackEvent (handleTrackEvent (handleTrackEvent log A) B) C) =
      log ++ [A, B, C] ∧
    (∀ es : List α, List.foldl handleTrackEvent log es = log ++ es) := by
  constructor
  · simp [drain, handleTrackEvent]
  · intro es
    induction es generalizing log with
    | nil => simp
    | cons e es ih =>
        rw [List.foldl_cons]
        rw [ih (handleTrackEvent log e)]
        simp [handleTrackEvent]

/-- The check-in data of App.tsx (CheckInForm): workplace, field, interests. -/
structure CheckIn where
  workplace : String
  field : String
  interests : List String
deriving DecidableEq, Repr

/-- One entry of the App-level event log (WritingSession.eventLog in
lib/firebase.ts): a type string, a timestamp, and the optional extra fields the
various record sites attach. -/
structure LogEvent where
  type : String
  timestamp : Int
  content : Option String := none
  selection : Option (Int × Int) := none
  wildcardId : Option String := none
  ruleId : Option String := none
  checkInData : Option CheckIn := none
deriving DecidableEq, Repr

/-- The rule snapshot stored in a WritingSession (App.tsx lines 226-233):
id, content, type, status, and the two optional timestamps. -/
structure RuleSnapshot where
  id : String
  content : String
  type : RuleType
  status : RuleStatus
  completedAt : Option Int
  skippedAt : Option Int
deriving DecidableEq, Repr

/-- The feedback aggregate of a WritingSession (lib/firebase.ts): the
questionnaire answers plus formCompletionTime. -/
structure Feedback where
  satisfaction : String
  challenge : String
  feedback : String
  formCompletionTime : Int
deriving DecidableEq, Repr

/-- The questionnaire answers handleFormSubmit receives from SubmissionForm. -/
structure FormData where
  satisfaction : String
  challenge : String
  feedback : String
deriving DecidableEq, Repr

/-- The WritingSession aggregate of lib/firebase.ts. -/
structure Session where
  sessionId : String
  content : String
  wordCount : Nat
  startTime : Int
  endTime : Int
  duration : Int
  eventLog : List LogEvent
  rules : List RuleSnapshot
  feedback : Feedback
  checkIn : Option CheckIn
deriving DecidableEq, Repr

/-- The JS spread `...(x ? { field: x } : {})` on an optional numeric field
(App.tsx lines 231-232): the field is kept when present and truthy; an absent
field — and a present field whose value is 0, which is falsy — yields no
field. -/
def truthyOpt (x : Option Int) : Option Int :=
  match x with
  | some v => if v = 0 then none else some v
  | none => none

/-- The per-rule snapshot of App.tsx handleFormSubmit (lines 226-233). -/
def snapshotRule (r : Rule) : RuleSnapshot :=
  RuleSnapshot.mk r.id r.content r.type r.status (truthyOpt r.completedAt)
    (truthyOpt r.skippedAt)

/-- App.tsx handleFormSubmit lines 217-239: assemble the final session object.
duration is endTime - startTime; the event log is taken verbatim; the rules are
snapshotted; feedback is the form data plus formCompletionTime = Date.now();
checkIn is spread in when present. -/
def assembleSession (sessionId content : String) (wordCount : Nat)
    (startTime endTime : Int) (events : List LogEvent) (rules : List Rule)
    (formData : FormData) (now : Int) (checkInData : Option CheckIn) : Session :=
  Session.mk sessionId content wordCount startTime endTime (endTime - startTime)
    events (rules.map snapshotRule)
    (Feedback.mk formData.satisfaction formData.challenge formData.feedback now)
    checkInData

theorem truthyOpt_some_iff (x : Option Int) (v : Int) :
    truthyOpt x = some v ↔ x = some v ∧ v ≠ 0 := by
  match x with
  | none => simp [truthyOpt]
  | some w =>
      by_cases hw : w = 0
      · subst hw
        simp [truthyOpt]
        intro h
        exact h.symm
      · simp only [truthyOpt, if_neg hw, Option.some.injEq]
        constructor
        · intro h
          exact ⟨h, h ▸ hw⟩
        · intro h
          exact h.1

/-- C7 counterexample: a rule whose completedAt is present with value 0 — the
truthiness test in App.tsx handleFormSubmit drops the field from the snapshot,
so a present completedAt is not always included. -/
theorem snapshot_drops_zero_timestamp :
    (Rule.mk "structure1" "c" RuleType.optional (Cond.mk CondKind.wordCount 10)
        RuleStatus.completed (some 0) none).completedAt = some 0 ∧
    ((assembleSession "s" "txt" 3 100 200 []
        [Rule.mk "structure1" "c" RuleType.optional (Cond.mk CondKind.wordCount 10)
          RuleStatus.completed (some 0) none]
        (FormData.mk "satisfied" "just-right" "") 250 none).rules.map
      RuleSnapshot.completedAt) = [none] := by
  constructor
  · rfl
  · rfl

/-- C7 amended: session assembly is a pure function whose duration is exactly
endTime - startTime and whose eventLog is the input log verbatim; the rule
snapshot includes completedAt (resp. skippedAt) exactly when the field is
present with a nonzero value — the JS truthiness spread drops a present-but-0
timestamp. -/
theorem assemble_session_exact (sessionId content : String) (wordCount : Nat)
    (startTime endTime : Int) (events : List LogEvent) (rules : List Rule)
    (formData : FormData) (now : Int) (checkInData : Option CheckIn) :
    (assembleSession sessionId content wordCount startTime endTime events rules
        formData now checkInData).duration = endTime - startTime ∧
    (assembleSession sessionId content wordCount startTime endTime events rules
        formData now checkInData).eventLog = events ∧
    (assembleSession sessionId content wordCount startTime endTime events rules
        formData now checkInData).rules = rules.map snapshotRule ∧
    (∀ r : Rule, ∀ v : Int,
      ((snapshotRule r).completedAt = some v ↔ r.completedAt = some v ∧ v ≠ 0) ∧
      ((snapshotRule r).skippedAt = some v ↔ r.skippedAt = some v ∧ v ≠ 0)) := by
  refine ⟨rfl, rfl, rfl, fun r v => ⟨?_, ?_⟩⟩
  · exact truthyOpt_some_iff r.completedAt v
  · exact truthyOpt_some_iff r.skippedAt v

/-- A JSON document, as produced by JSON.stringify in downloadSessionAsJson
(lib/firebase.ts).  Every number occurring in a Session is an integer
timestamp, duration or count, exactly representable, so numbers are modelled
as integers. -/
inductive Json where
  | null : Json
  | bool : Bool → Json
  | num : Int → Json
  | str : String → Json
  | arr : List Json → Json
  | obj : List (String × Json) → Json

/-- Key lookup in a parsed JSON object, first match wins. -/
def lookupKey : List (String × Json) → String → Option Json
  | [], _ => none
  | (k, v) :: rest, key => if k = key then some v else lookupKey rest key

/-- Read a field of a JSON object; absent key or non-object gives none. -/
def getKey (j : Json) (key : String) : Option Json :=
  match j with
  | Json.obj fields => lookupKey fields key
  | _ => none

/-- Read a JSON string. -/
def asStr : Json → Option String
  | Json.str s => some s
  | _ => none

/-- Read a JSON integer. -/
def asInt : Json → Option Int
  | Json.num n => some n
  | _ => none

/-- Read a JSON array. -/
def asArr : Json → Option (List Json)
  | Json.arr xs => some xs
  | _ => none

/-- Decode every element of a JSON array; any failure fails the whole array. -/
def decodeList {α : Type} (dec : Json → Option α) : List Json → Option (List α)
  | [] => some []
  | j :: rest =>
      match dec j, decodeList dec rest with
      | some a, some tail => some (a :: tail)
      | _, _ => none

/-- A present optional string serializes to one field, an absent one to no
field at all. -/
def optStrField (key : String) (x : Option String) : List (String × Json) :=
  match x with
  | some s => [(key, Json.str s)]
  | none => []

/-- A present optional integer serializes to one field, an absent one to no
field at all. -/
def optIntField (key : String) (x : Option Int) : List (String × Json) :=
  match x with
  | some v => [(key, Json.num v)]
  | none => []

/-- The optional selection snapshot of an editor event: `{start, end}`. -/
def optSelField (x : Option (Int × Int)) : List (String × Json) :=
  match x with
  | some p => [("selection", Json.obj [("start", Json.num p.1), ("end", Json.num p.2)])]
  | none => []

/-- Read back a selection object. -/
def decodeSel (j : Json) : Option (Int × Int) :=
  match (getKey j "start").bind asInt, (getKey j "end").bind asInt with
  | some a, some b => some (a, b)
  | _, _ => none

/-- Serialize the check-in data. -/
def encodeCheckIn (ci : CheckIn) : Json :=
  Json.obj [("workplace", Json.str ci.workplace), ("field", Json.str ci.field),
    ("interests", Json.arr (ci.interests.map Json.str))]

/-- Parse the check-in data back. -/
def decodeCheckIn (j : Json) : Option CheckIn :=
  match (getKey j "workplace").bind asStr, (getKey j "field").bind asStr,
      (getKey j "interests").bind asArr with
  | some w, some f, some xs =>
      match decodeList asStr xs with
      | some ys => some (CheckIn.mk w f ys)
      | none => none
  | _, _, _ => none

/-- Serialize one event-log entry: type and timestamp always, the extra fields
only when present. -/
def encodeLogEvent (e : LogEvent) : Json :=
  Json.obj ([("type", Json.str e.type), ("timestamp", Json.num e.timestamp)]
    ++ optStrField "content" e.content
    ++ optSelField e.selection
    ++ optStrField "wildcardId" e.wildcardId
    ++ optStrField "ruleId" e.ruleId
    ++ (match e.checkInData with
        | some ci => [("checkInData", encodeCheckIn ci)]
        | none => []))

/-- Parse one event-log entry back. -/
def decodeLogEvent (j : Json) : Option LogEvent :=
  match (getKey j "type").bind asStr, (getKey j "timestamp").bind asInt with
  | some ty, some ts =>
      some (LogEvent.mk ty ts ((getKey j "content").bind asStr)
        ((getKey j "selection").bind decodeSel)
        ((getKey j "wildcardId").bind asStr)
        ((getKey j "ruleId").bind asStr)
        ((getKey j "checkInData").bind decodeCheckIn))
  | _, _ => none

/-- Rule type as its JSON string. -/
def ruleTypeStr : RuleType → String
  | RuleType.mandatory => "mandatory"
  | RuleType.optional => "optional"

/-- Rule type parsed back from its JSON string. -/
def ruleTypeOfStr (s : String) : Option RuleType :=
  if s = "mandatory" then some RuleType.mandatory
  else if s = "optional" then some RuleType.optional
  else none

/-- Rule status as its JSON string. -/
def ruleStatusStr : RuleStatus → String
  | RuleStatus.inactive => "inactive"
  | RuleStatus.active => "active"
  | RuleStatus.completed => "completed"
  | RuleStatus.skipped => "skipped"

/-- Rule status parsed back from its JSON string. -/
def ruleStatusOfStr (s : String) : Option RuleStatus :=
  if s = "inactive" then some RuleStatus.inactive
  else if s = "active" then some RuleStatus.active
  else if s = "completed" then some RuleStatus.completed
  else if s = "skipped" then some RuleStatus.skipped
  else none

/-- Serialize one rule snapshot; the optional timestamps appear only when
present. -/
def encodeRuleSnapshot (r : RuleSnapshot) : Json :=
  Json.obj ([("id", Json.str r.id), ("content", Json.str r.content),
    ("type", Json.str (ruleTypeStr r.type)),
    ("status", Json.str (ruleStatusStr r.status))]
    ++ optIntField "completedAt" r.completedAt
    ++ optIntField "skippedAt" r.skippedAt)

/-- Parse one rule snapshot back. -/
def decodeRuleSnapshot (j : Json) : Option RuleSnapshot :=
  match (getKey j "id").bind asStr, (getKey j "content").bind asStr,
      ((getKey j "type").bind asStr).bind ruleTypeOfStr,
      ((getKey j "status").bind asStr).bind ruleStatusOfStr with
  | some i, some c, some ty, some st =>
      some (RuleSnapshot.mk i c ty st ((getKey j "completedAt").bind asInt)
        ((getKey j "skippedAt").bind asInt))
  | _, _, _, _ => none

/-- Serialize the feedback aggregate. -/
def encodeFeedback (f : Feedback) : Json :=
  Json.obj [("satisfaction", Json.str f.satisfaction),
    ("challenge", Json.str f.challenge), ("feedback", Json.str f.feedback),
    ("formCompletionTime", Json.num f.formCompletionTime)]

/-- Parse the feedback aggregate back. -/
def decodeFeedback (j : Json) : Option Feedback :=
  match (getKey j "satisfaction").bind asStr, (getKey j "challenge").bind asStr,
      (getKey j "feedback").bind asStr,
      (getKey j "formCompletionTime").bind asInt with
  | some s, some c, some f, some t => some (Feedback.mk s c f t)
  | _, _, _, _ => none

/-- Serialize a whole session, mirroring the object literal assembled in
App.tsx handleFormSubmit: the checkIn field is spread in only when present. -/
def encodeSession (s : Session) : Json :=
  Json.obj ([("sessionId", Json.str s.sessionId), ("content", Json.str s.content),
    ("wordCount", Json.num (s.wordCount : Int)), ("startTime", Json.num s.startTime),
    ("endTime", Json.num s.endTime), ("duration", Json.num s.duration),
    ("eventLog", Json.arr (s.eventLog.map encodeLogEvent)),
    ("rules", Json.arr (s.rules.map encodeRuleSnapshot)),
    ("feedback", encodeFeedback s.feedback)]
    ++ (match s.checkIn with
        | some ci => [("checkIn", encodeCheckIn ci)]
        | none => []))

/-- Parse a whole session back, field by field. -/
def decodeSession (j : Json) : Option Session :=
  match (getKey j "sessionId").bind asStr, (getKey j "content").bind asStr,
      (getKey j "wordCount").bind asInt, (getKey j "startTime").bind asInt,
      (getKey j "endTime").bind asInt, (getKey j "duration").bind asInt with
  | some sid, some c, some wc, some st, some et, some d =>
      match (getKey j "eventLog").bind asArr, (getKey j "rules").bind asArr,
          (getKey j "feedback").bind decodeFeedback with
      | some evj, some rsj, some fb =>
          match decodeList decodeLogEvent evj, decodeList decodeRuleSnapshot rsj with
          | some ev, some rs =>
              if 0 ≤ wc then
                some (Session.mk sid c wc.toNat st et d ev rs fb
                  ((getKey j "checkIn").bind decodeCheckIn))
              else none
          | _, _ => none
      | _, _, _ => none
  | _, _, _, _, _, _ => none

theorem decodeList_asStr (xs : List String) :
    decodeList asStr (xs.map Json.str) = some xs := by
  induction xs with
  | nil => rfl
  | cons x xs ih => simp [decodeList, asStr, ih]

theorem decodeCheckIn_encode (ci : CheckIn) :
    decodeCheckIn (encodeCheckIn ci) = some ci := by
  obtain ⟨w, f, xs⟩ := ci
  simp [decodeCheckIn, encodeCheckIn, getKey, lookupKey, asStr, asArr,
    decodeList_asStr]

theorem decodeLogEvent_encode (e : LogEvent) :
    decodeLogEvent (encodeLogEvent e) = some e := by
  obtain ⟨ty, ts, c, sel, w, rid, ckd⟩ := e
  cases c <;> cases sel <;> cases w <;> cases rid <;> cases ckd <;>
    simp [decodeLogEvent, encodeLogEvent, getKey, lookupKey, asStr, asInt,
      optStrField, optSelField, optIntField, decodeSel, decodeCheckIn_encode]

theorem ruleTypeOfStr_str (t : RuleType) : ruleTypeOfStr (ruleTypeStr t) = some t := by
  cases t <;> simp [ruleTypeStr, ruleTypeOfStr]

theorem ruleStatusOfStr_str (st : RuleStatus) :
    ruleStatusOfStr (ruleStatusStr st) = some st := by
  cases st <;> simp [ruleStatusStr, ruleStatusOfStr]

theorem decodeRuleSnapshot_encode (r : RuleSnapshot) :
    decodeRuleSnapshot (encodeRuleSnapshot r) = some r := by
  obtain ⟨i, c, ty, st, ca, sk⟩ := r
  cases ca <;> cases sk <;>
    simp [decodeRuleSnapshot, encodeRuleSnapshot, getKey, lookupKey, asStr,
      asInt, optIntField, ruleTypeOfStr_str, ruleStatusOfStr_str]

theorem decodeFeedback_encode (f : Feedback) :
    decodeFeedback (encodeFeedback f) = some f := by
  obtain ⟨s, c, fb, t⟩ := f
  simp [decodeFeedback, encodeFeedback, getKey, lookupKey, asStr, asInt]

theorem decodeList_encodeLogEvent (es : List LogEvent) :
    decodeList decodeLogEvent (es.map encodeLogEvent) = some es := by
  induction es with
  | nil => rfl
  | cons e es ih => simp [decodeList, decodeLogEvent_encode, ih]

theorem decodeList_encodeRuleSnapshot (rs : List RuleSnapshot) :
    decodeList decodeRuleSnapshot (rs.map encodeRuleSnapshot) = some rs := by
  induction rs with
  | nil => rfl
  | cons r rs ih => simp [decodeList, decodeRuleSnapshot_encode, ih]

/-- C8: serializing an assembled session to JSON and parsing it back yields the
identical session object — no field is lost (optional fields keep their
absent-or-present shape) and every numeric timestamp is preserved exactly. -/
theorem session_json_round_trip (s : Session) :
    decodeSession (encodeSession s) = some s := by
  obtain ⟨sid, c, wc, st, et, d, ev, rs, fb, ck⟩ := s
  cases ck <;>
    simp [decodeSession, encodeSession, getKey, lookupKey, asStr, asInt, asArr,
      decodeList_encodeLogEvent, decodeList_encodeRuleSnapshot,
      decodeFeedback_encode, decodeCheckIn_encode]

mutual

/-- Print a JSON document, as JSON.stringify does (whitespace aside). -/
def printJson : Json → String
  | Json.null => "null"
  | Json.bool b => if b then "true" else "false"
  | Json.num n => toString n
  | Json.str s => "\"" ++ s ++ "\""
  | Json.arr xs => "[" ++ printJsonItems xs ++ "]"
  | Json.obj fs => "\x7b" ++ printJsonFields fs ++ "\x7d"

/-- Print array elements, comma separated. -/
def printJsonItems : List Json → String
  | [] => ""
  | [j] => printJson j
  | j :: rest => printJson j ++ "," ++ printJsonItems rest

/-- Print object fields, comma separated. -/
def printJsonFields : List (String × Json) → String
  | [] => ""
  | [(k, v)] => "\"" ++ k ++ "\":" ++ printJson v
  | (k, v) :: rest => "\"" ++ k ++ "\":" ++ printJson v ++ "," ++ printJsonFields rest

end

/-- The browser-visible state the submission flow touches: the localStorage
map, the offered file downloads (filename and contents), the captured editor
content and the in-memory event log. -/
structure AppState where
  localStorage : String → Option String
  downloads : List (String × String)
  content : String
  events : List LogEvent
  isComplete : Bool

/-- localStorage.setItem. -/
def setItem (store : String → Option String) (key v : String) :
    String → Option String :=
  fun k => if k = key then some v else store k

/-- localStorage.removeItem. -/
def removeItem (store : String → Option String) (key : String) :
    String → Option String :=
  fun k => if k = key then none else store k

/-- The outcome of the Firestore addDoc call, an external collaborator: either
a document id or a thrown error. -/
inductive CloudResult where
  | ok (docId : String)
  | err

/-- lib/firebase.ts saveSession (lines 51-68): on success the document id is
returned; on failure the error is caught, the full session JSON is written to
localStorage under session_{sessionId}, and the error is re-thrown to the
caller (none here). -/
def saveSession (session : Session) (cloud : CloudResult)
    (store : String → Option String) : Option String × (String → Option String) :=
  match cloud with
  | CloudResult.ok docId => (some docId, store)
  | CloudResult.err =>
      (none, setItem store ("session_" ++ session.sessionId)
        (printJson (encodeSession session)))

/-- lib/firebase.ts saveSessionToLocalStorage (lines 71-78): write the session
JSON under session_{sessionId}. -/
def saveSessionToLocalStorage (session : Session)
    (store : String → Option String) : String → Option String :=
  setItem store ("session_" ++ session.sessionId) (printJson (encodeSession session))

/-- lib/firebase.ts downloadSessionAsJson (lines 81-93): offer a download named
scenario_session_{sessionId}.json holding the printed session. -/
def downloadSessionAsJson (session : Session)
    (downloads : List (String × String)) : List (String × String) :=
  downloads ++ [("scenario_session_" ++ session.sessionId ++ ".json",
    printJson (encodeSession session))]

/-- App.tsx handleFormSubmit lines 242-255: on success clear the draft and mark
the session complete; on failure run the fallback chain — local-storage backup,
then offered JSON download.  Neither branch touches the captured content or the
event log, and the failure is absorbed: the flow always returns a state. -/
def submitFlow (session : Session) (cloud : CloudResult) (st : AppState) : AppState :=
  match saveSession session cloud st.localStorage with
  | (some _, store) =>
      { st with
        localStorage := removeItem store ("draft_" ++ session.sessionId),
        isComplete := true }
  | (none, store) =>
      { st with
        localStorage := saveSessionToLocalStorage session store,
        downloads := downloadSessionAsJson session st.downloads }

/-- C9: when the cloud save throws, the flow still returns a state (the failure
is caught, never fatal), the localStorage key session_{sessionId} holds the
full session serialized as JSON, a file download whose name contains the
sessionId is offered with that same JSON as contents, and the already-captured
editor content and event history are untouched. -/
theorem cloud_failure_fallback (session : Session) (st : AppState) :
    (submitFlow session CloudResult.err st).localStorage
        ("session_" ++ session.sessionId) =
      some (printJson (encodeSession session)) ∧
    (∃ fname data : String,
      (fname, data) ∈ (submitFlow session CloudResult.err st).downloads ∧
      (∃ a b : String, fname = a ++ session.sessionId ++ b) ∧
      data = printJson (encodeSession session)) ∧
    (submitFlow session CloudResult.err st).content = st.content ∧
    (submitFlow session CloudResult.err st).events = st.events := by
  refine ⟨?_, ?_, rfl, rfl⟩
  · simp [submitFlow, saveSession, saveSessionToLocalStorage, setItem]
  · refine ⟨"scenario_session_" ++ session.sessionId ++ ".json",
      printJson (encodeSession session), ?_,
      ⟨"scenario_session_", ".json", rfl⟩, rfl⟩
    simp [submitFlow, saveSession, downloadSessionAsJson]

/-- JS String.prototype.trim: drop leading and trailing whitespace; the editor
content is modelled as its list of characters. -/
def jsTrim (content : List Char) : List Char :=
  ((content.dropWhile Char.isWhitespace).reverse.dropWhile Char.isWhitespace).reverse

/-- App.tsx line 331: the Submit Story button's disabled attribute is
content.trim().length < 50. -/
def submitDisabled (content : List Char) : Bool :=
  decide ((jsTrim content).length < 50)

/-- C10: the submit action is unavailable exactly when the trimmed editor
content is shorter than 50 characters, and every content whose trimmed length
is at least 50 has it enabled. -/
theorem submit_length_gate (content : List Char) :
    (submitDisabled content = true ↔ (jsTrim content).length < 50) ∧
    (submitDisabled content = false ↔ 50 ≤ (jsTrim content).length) := by
  constructor
  · simp [submitDisabled]
  · simp [submitDisabled]

end ScenarioWriter
